import Mathlib

/-!
Verification development for `scripts/spec_tools/consistency_tools.py`
(XML registry consistency checker).

Python sets of strings are embedded as duplicate-free `List String`
(`StrSet`): membership is `∈`, insertion appends when absent, and set
iteration order is the list order (Python leaves it unspecified; every
theorem below that depends on it either quantifies over the order or only
uses set-membership facts).

`DictOfStringSets` (from `spec_tools/data_structures.py`, which is not in
the sources; modelled from the spec and its in-source uses: a dict whose
values are normalized to sets of strings, `add` unions into the entry,
creating it when absent) is embedded as an insertion-ordered association
list with unique keys.
-/

/-- A Python `set` of strings: a duplicate-free list, in insertion order. -/
abbrev StrSet := List String

namespace StrSet

/-- `s.add(x)`: insert preserving order, no duplicates. -/
def insert (s : StrSet) (x : String) : StrSet :=
  if x ∈ s then s else s ++ [x]

/-- `set(l)`: build a set from a list, keeping first occurrences. -/
def ofList (l : List String) : StrSet :=
  l.foldl insert []

/-- `a.update(b)` / `a | b`. -/
def union (a b : StrSet) : StrSet :=
  b.foldl insert a

/-- `a.isdisjoint(b)`. -/
def disjointb (a b : StrSet) : Bool :=
  a.all (fun x => decide (x ∉ b))

theorem mem_insert (s : StrSet) (x y : String) :
    y ∈ s.insert x ↔ y ∈ s ∨ y = x := by
  unfold insert
  by_cases h : x ∈ s
  · simp only [if_pos h]
    constructor
    · exact Or.inl
    · rintro (hy | rfl)
      · exact hy
      · exact h
  · simp [if_neg h]

theorem insert_of_mem {s : StrSet} {x : String} (h : x ∈ s) :
    s.insert x = s := by
  unfold insert
  simp [h]

theorem nodup_insert {s : StrSet} (h : s.Nodup) (x : String) :
    (s.insert x).Nodup := by
  unfold insert
  by_cases hx : x ∈ s
  · simp [hx, h]
  · simp only [if_neg hx]
    rw [List.nodup_append]
    refine ⟨h, by simp, ?_⟩
    intro a ha
    simp only [List.mem_singleton]
    rintro rfl
    exact hx ha

theorem mem_union (a b : StrSet) (y : String) :
    y ∈ a.union b ↔ y ∈ a ∨ y ∈ b := by
  unfold union
  induction b generalizing a with
  | nil => simp
  | cons x xs ih =>
      simp only [List.foldl_cons, List.mem_cons]
      rw [ih]
      rw [mem_insert]
      constructor
      · rintro (⟨hy | rfl⟩ | hy)
        · exact Or.inl hy
        · exact Or.inr (Or.inl rfl)
        · exact Or.inr (Or.inr hy)
      · rintro (hy | rfl | hy)
        · exact Or.inl (Or.inl hy)
        · exact Or.inl (Or.inr rfl)
        · exact Or.inr hy

theorem nodup_union {a : StrSet} (h : a.Nodup) (b : StrSet) :
    (a.union b).Nodup := by
  unfold union
  induction b generalizing a with
  | nil => exact h
  | cons x xs ih =>
      simp only [List.foldl_cons]
      exact ih (nodup_insert h x)

theorem union_of_subset {a b : StrSet} (h : ∀ x ∈ b, x ∈ a) :
    a.union b = a := by
  unfold union
  induction b generalizing a with
  | nil => rfl
  | cons x xs ih =>
      simp only [List.foldl_cons]
      rw [insert_of_mem (h x (by simp))]
      exact ih (fun y hy => h y (by simp [hy]))

theorem mem_ofList (l : List String) (y : String) :
    y ∈ ofList l ↔ y ∈ l := by
  unfold ofList
  have key : ∀ (l : List String) (a : StrSet), y ∈ l.foldl insert a ↔ y ∈ a ∨ y ∈ l := by
    intro l
    induction l with
    | nil => simp
    | cons x xs ih =>
        intro a
        simp only [List.foldl_cons, List.mem_cons]
        rw [ih, mem_insert]
        tauto
  rw [key]
  simp

theorem nodup_ofList (l : List String) : (ofList l).Nodup := by
  unfold ofList
  have key : ∀ (l : List String) (a : StrSet), a.Nodup → (l.foldl insert a).Nodup := by
    intro l
    induction l with
    | nil => exact fun a h => h
    | cons x xs ih =>
        intro a h
        simp only [List.foldl_cons]
        exact ih _ (nodup_insert h x)
  exact key l [] (by simp)

end StrSet

/-- `spec_tools/data_structures.py` `DictOfStringSets` (not in the sources;
modelled from the spec and in-source uses): a dict mapping strings to sets
of strings, as an insertion-ordered association list with unique keys. -/
abbrev DictOfStringSets := List (String × StrSet)

namespace DictOfStringSets

/-- Python `dict.get(k)` (returns `None` when the key is absent). -/
def get? : DictOfStringSets → String → Option StrSet
  | [], _ => none
  | (k, v) :: rest, key => if k = key then some v else get? rest key

/-- `d.get(k, default)`. -/
def getD (d : DictOfStringSets) (key : String) (dflt : StrSet) : StrSet :=
  (d.get? key).getD dflt

/-- `d.keys()`. -/
def keys (d : DictOfStringSets) : List String :=
  d.map Prod.fst

/-- `DictOfStringSets.add(key, value)`: union `value` into the set stored at
`key`, creating the entry when absent. -/
def add : DictOfStringSets → String → StrSet → DictOfStringSets
  | [], k, v => [(k, StrSet.union [] v)]
  | (k', s) :: rest, k, v =>
      if k' = k then (k', s.union v) :: rest else (k', s) :: add rest k v

theorem get?_add_self (d : DictOfStringSets) (k : String) (v : StrSet) :
    (d.add k v).get? k = some (((d.get? k).getD []).union v) := by
  induction d with
  | nil => simp [add, get?]
  | cons p rest ih =>
      obtain ⟨k', s⟩ := p
      by_cases h : k' = k
      · subst h
        simp [add, get?]
      · simp [add, get?, h, ih]

theorem get?_add_other (d : DictOfStringSets) (k k' : String) (v : StrSet)
    (h : k ≠ k') : (d.add k v).get? k' = d.get? k' := by
  induction d with
  | nil => simp [add, get?, h]
  | cons p rest ih =>
      obtain ⟨k0, s⟩ := p
      by_cases h0 : k0 = k
      · subst h0
        simp [add, get?, h]
      · simp [add, get?, h0, ih]

theorem mem_getD_add_self (d : DictOfStringSets) (k : String) (v : StrSet)
    (x : String) (hx : x ∈ v) : x ∈ (d.add k v).getD k [] := by
  unfold getD
  rw [get?_add_self]
  simp [StrSet.mem_union, hx]

theorem mem_getD_add_mono (d : DictOfStringSets) (k k' : String) (v : StrSet)
    (x : String) (hx : x ∈ d.getD k' []) : x ∈ (d.add k v).getD k' [] := by
  by_cases h : k = k'
  · subst h
    unfold getD
    rw [get?_add_self]
    unfold getD at hx
    simp [StrSet.mem_union]
    exact Or.inl hx
  · unfold getD
    rw [get?_add_other d k k' v h]
    exact hx

theorem get?_add_none (d : DictOfStringSets) (k k' : String) (v : StrSet)
    (h : k ≠ k') (h2 : d.get? k' = none) : (d.add k v).get? k' = none := by
  rw [get?_add_other d k k' v h]
  exact h2

end DictOfStringSets

/-!
## Handle hierarchy (`HandleParents`, `HandleData`)

A registry's handle types are embedded as an association list from handle
name to the optional `parent` attribute string.  `HandleParents` is a
`RecursiveMemoize` subclass; memoization does not change the computed
value, so `ancestors` is embedded as a plain recursive function.  Python's
recursion has no cycle guard (a cyclic parent declaration diverges, a
documented limitation); the embedding uses a fuel parameter, and every
theorem either supplies sufficient fuel or holds for all fuel values.
-/

/-- The handle-types table: handle name paired with its `parent` attribute
(`none` when the XML element has no `parent` attribute). -/
abbrev HandleTypes := List (String × Option String)

/-- Python `s.split(",")`: split on every comma, keeping empty pieces
(structurally recursive so that concrete instances evaluate). -/
def pySplitComma (s : String) : List String :=
  (s.data.foldr
    (fun c acc =>
      match acc with
      | cur :: rest => if c = ',' then [] :: cur :: rest else (c :: cur) :: rest
      | [] => [[c]])
    [[]]).map List.asString

/-- Lookup of the `parent` attribute of a handle (joins the two `Option`
layers: an unknown handle raises `KeyError` in Python and is only reachable
here for malformed registries, where it behaves like "no parent"). -/
def parentAttr (ht : HandleTypes) : String → Option String
  | h =>
    match ht.find? (fun p => p.fst = h) with
    | some (_, att) => att
    | none => none

/-- `HandleParents.compute`: the immediate parent name(s) (the `parent`
attribute split on commas) followed by the recursively computed ancestors
of each, concatenated in declaration order, without deduplication.  A
handle with no declared parent yields `[]`. -/
def HandleParents.compute (ht : HandleTypes) : Nat → String → List String
  | 0, _ => []
  | fuel + 1, handle_type =>
    match parentAttr ht handle_type with
    | none => []
    | some immediate_parent =>
        let immediate_parents := pySplitComma immediate_parent
        immediate_parents ++
          immediate_parents.flatMap (HandleParents.compute ht fuel)

/-- `HandleData.ancestors_dict`: handle name to its ancestor sequence. -/
def ancestors_dict (ht : HandleTypes) (fuel : Nat) : List (String × List String) :=
  ht.map (fun p => (p.fst, HandleParents.compute ht fuel p.fst))

/-- `HandleData.descendants_dict`: for each handle `h`, the set of handles
`h2` such that `h` appears in `ancestors(h2)` (the inverse relation). -/
def descendants_dict (ht : HandleTypes) (fuel : Nat) : List (String × StrSet) :=
  let handle_parents := ancestors_dict ht fuel
  handle_parents.map
    (fun p => (p.fst,
      (handle_parents.map Prod.fst).filter
        (fun h2 => decide (p.fst ∈ HandleParents.compute ht fuel h2))))

theorem get?_keyed_map (f : String → List String) :
    ∀ (ks : List String) (a : String), a ∈ ks →
      DictOfStringSets.get? (ks.map (fun k => (k, f k))) a = some (f a) := by
  intro ks
  induction ks with
  | nil => simp
  | cons x xs ih =>
      intro a ha
      simp only [List.map_cons, DictOfStringSets.get?]
      by_cases hx : x = a
      · subst hx
        simp
      · rw [if_neg hx]
        apply ih
        rcases List.mem_cons.mp ha with h | h
        · exact absurd h.symm hx
        · exact h

/-- Claim C3: `ancestors` returns the immediate parent name(s) in
comma-separated declaration order followed by the recursively computed
ancestors of each, concatenated without deduplication; a handle with no
declared parent yields the empty sequence; and for `H3` with parent
`"H1,H2"`, `H1` with parent `"H0"`, `H0`/`H2` with no parent,
`ancestors(H3) = [H1, H2, H0]`. -/
theorem c3_ancestors_declaration_order :
    (∀ (ht : HandleTypes) (fuel : Nat) (h : String),
        parentAttr ht h = none → HandleParents.compute ht fuel h = []) ∧
    (∀ (ht : HandleTypes) (fuel : Nat) (h p : String),
        parentAttr ht h = some p →
        HandleParents.compute ht (fuel + 1) h =
          pySplitComma p ++
            (pySplitComma p).flatMap (HandleParents.compute ht fuel)) ∧
    HandleParents.compute
        [("H3", some "H1,H2"), ("H1", some "H0"), ("H0", none), ("H2", none)]
        4 "H3" = ["H1", "H2", "H0"] := by
  refine ⟨?_, ?_, ?_⟩
  · intro ht fuel h hnone
    cases fuel with
    | zero => rfl
    | succ n =>
        unfold HandleParents.compute
        rw [hnone]
  · intro ht fuel h p hsome
    unfold HandleParents.compute
    rw [hsome]
  · rfl

/-- Concrete witness for the hypotheses of `c3_ancestors_declaration_order`. -/
theorem c3_ancestors_declaration_order_witness :
    HandleParents.compute
        [("H3", some "H1,H2"), ("H1", some "H0"), ("H0", none), ("H2", none)]
        7 "H2" = [] ∧
    HandleParents.compute
        [("H3", some "H1,H2"), ("H1", some "H0"), ("H0", none), ("H2", none)]
        3 "H3" =
      pySplitComma "H1,H2" ++
        (pySplitComma "H1,H2").flatMap
          (HandleParents.compute
            [("H3", some "H1,H2"), ("H1", some "H0"), ("H0", none), ("H2", none)]
            2) :=
  ⟨c3_ancestors_declaration_order.1
      [("H3", some "H1,H2"), ("H1", some "H0"), ("H0", none), ("H2", none)]
      7 "H2" (by rfl),
   c3_ancestors_declaration_order.2.1
      [("H3", some "H1,H2"), ("H1", some "H0"), ("H0", none), ("H2", none)]
      2 "H3" "H1,H2" (by rfl)⟩

/-- Claim C4: the descendant relation is the exact inverse of the ancestor
relation: for all handles `a`, `b` known to the registry,
`b ∈ descendants(a)` if and only if `a ∈ ancestors(b)`. -/
theorem c4_descendants_inverse_of_ancestors
    (ht : HandleTypes) (fuel : Nat) (a b : String)
    (ha : a ∈ ht.map Prod.fst) (hb : b ∈ ht.map Prod.fst) :
    b ∈ DictOfStringSets.getD (descendants_dict ht fuel) a [] ↔
      a ∈ DictOfStringSets.getD (ancestors_dict ht fuel) b [] := by
  have hmap : ∀ (f : String → List String),
      ht.map (fun p => (p.fst, f p.fst)) =
        (ht.map Prod.fst).map (fun k => (k, f k)) := by
    intro f
    rw [List.map_map]
    rfl
  have hanc : ancestors_dict ht fuel =
      (ht.map Prod.fst).map (fun k => (k, HandleParents.compute ht fuel k)) := by
    unfold ancestors_dict
    exact hmap _
  have hanc_keys : (ancestors_dict ht fuel).map Prod.fst = ht.map Prod.fst := by
    rw [hanc, List.map_map]
    simp
  have hanc_get : DictOfStringSets.getD (ancestors_dict ht fuel) b [] =
      HandleParents.compute ht fuel b := by
    unfold DictOfStringSets.getD
    rw [hanc, get?_keyed_map _ _ b hb]
    rfl
  have hdesc : DictOfStringSets.getD (descendants_dict ht fuel) a [] =
      ((ancestors_dict ht fuel).map Prod.fst).filter
        (fun h2 => decide (a ∈ HandleParents.compute ht fuel h2)) := by
    unfold descendants_dict
    unfold DictOfStringSets.getD
    have : (ancestors_dict ht fuel).map
        (fun p => (p.fst,
          ((ancestors_dict ht fuel).map Prod.fst).filter
            (fun h2 => decide (p.fst ∈ HandleParents.compute ht fuel h2)))) =
        ((ancestors_dict ht fuel).map Prod.fst).map
          (fun k => (k,
            ((ancestors_dict ht fuel).map Prod.fst).filter
              (fun h2 => decide (k ∈ HandleParents.compute ht fuel h2)))) := by
      rw [List.map_map]
      rfl
    rw [this, get?_keyed_map _ _ a (by rw [hanc_keys]; exact ha)]
    rfl
  rw [hdesc, hanc_get, hanc_keys, List.mem_filter]
  simp [hb]

/-- Concrete witness for the hypotheses of
`c4_descendants_inverse_of_ancestors`. -/
theorem c4_descendants_inverse_of_ancestors_witness :
    "Device" ∈
        ([("Instance", none), ("Device", some "Instance")] : HandleTypes).map
          Prod.fst ∧
    ("Device" ∈
        DictOfStringSets.getD
          (descendants_dict [("Instance", none), ("Device", some "Instance")] 2)
          "Instance" [] ↔
      "Instance" ∈
        DictOfStringSets.getD
          (ancestors_dict [("Instance", none), ("Device", some "Instance")] 2)
          "Device" []) :=
  ⟨by decide,
   c4_descendants_inverse_of_ancestors
      [("Instance", none), ("Device", some "Instance")] 2 "Instance" "Device"
      (by decide) (by decide)⟩

/-!
## Outcome-code maps (`compute_type_to_codes`, `compute_codes_requiring_type`)

`handle_ancestors` / `handle_descendants` arguments are the dictionaries
produced by `HandleData` (embedded above as association lists).
-/

/-- `compute_type_to_codes`: initialize from the supplied manual codes, then
compute the extra per-handle ancestor codes and `add` them to each handle's
entry.  Faithful to the source: the Python body builds `codes = set()` and
then evaluates `codes.union(*ancestors_codes)` — `set.union` returns a new
set, and that result is never kept — so every `extra_handle_codes` entry is
still the empty set when it is added (the commented-out
`codes.update(parent_codes)` loop in the source is the variant that would
have mutated `codes`).  The default `add_extra_codes` extra_op is a no-op
and is omitted. -/
def compute_type_to_codes (handle_ancestors : List (String × List String))
    (types_to_codes : DictOfStringSets) : DictOfStringSets :=
  let extra_handle_codes : List (String × StrSet) :=
    handle_ancestors.map (fun p =>
      let codes : StrSet := []
      let _ancestors_codes :=
        p.snd.map (fun ancestor => DictOfStringSets.getD types_to_codes ancestor [])
      -- `codes.union(*_ancestors_codes)`: result discarded, `codes` unchanged.
      (p.fst, codes))
  extra_handle_codes.foldl
    (fun acc p => DictOfStringSets.add acc p.fst p.snd) types_to_codes

/-- Body of the inner `for code in code_set` loop of
`compute_codes_requiring_type`: `out.add(code, in_type)`, then, if the
in-type has a non-empty descendant set (`if descendants:`),
`out.add(code, descendants)`. -/
def codes_requiring_add_one (descendants : Option StrSet) (in_type : String)
    (out : DictOfStringSets) (code : String) : DictOfStringSets :=
  let out := DictOfStringSets.add out code [in_type]
  match descendants with
  | some ds => if ds.isEmpty then out else DictOfStringSets.add out code ds
  | none => out

/-- `compute_codes_requiring_type`: invert the type-to-codes association and
also permit any descendant handle to satisfy a requirement for a parent. -/
def compute_codes_requiring_type (handle_descendants : List (String × StrSet))
    (types_to_codes : DictOfStringSets) : DictOfStringSets :=
  types_to_codes.foldl
    (fun out p =>
      p.snd.foldl
        (codes_requiring_add_one
          (DictOfStringSets.get? handle_descendants p.fst) p.fst)
        out)
    []

theorem codes_requiring_add_one_mono (d : Option StrSet) (t : String)
    (out : DictOfStringSets) (c k x : String)
    (hx : x ∈ DictOfStringSets.getD out k []) :
    x ∈ DictOfStringSets.getD (codes_requiring_add_one d t out c) k [] := by
  unfold codes_requiring_add_one
  match d with
  | none => exact DictOfStringSets.mem_getD_add_mono _ _ _ _ _ hx
  | some ds =>
      by_cases hds : ds.isEmpty
      · simp only [hds, if_pos]
        exact DictOfStringSets.mem_getD_add_mono _ _ _ _ _ hx
      · simp only [hds, if_neg, Bool.false_eq_true, not_false_iff]
        exact DictOfStringSets.mem_getD_add_mono _ _ _ _ _
          (DictOfStringSets.mem_getD_add_mono _ _ _ _ _ hx)

theorem codes_requiring_add_one_hits (d : Option StrSet) (t : String)
    (out : DictOfStringSets) (c : String) :
    t ∈ DictOfStringSets.getD (codes_requiring_add_one d t out c) c [] ∧
    (∀ ds, d = some ds → ∀ x ∈ ds,
      x ∈ DictOfStringSets.getD (codes_requiring_add_one d t out c) c []) := by
  constructor
  · unfold codes_requiring_add_one
    have h1 : t ∈ DictOfStringSets.getD
        (DictOfStringSets.add out c [t]) c [] :=
      DictOfStringSets.mem_getD_add_self _ _ _ _ (by simp)
    match d with
    | none => exact h1
    | some ds =>
        by_cases hds : ds.isEmpty
        · simp only [hds, if_pos]
          exact h1
        · simp only [hds, Bool.false_eq_true, if_neg, not_false_iff]
          exact DictOfStringSets.mem_getD_add_mono _ _ _ _ _ h1
  · intro ds hds x hx
    subst hds
    unfold codes_requiring_add_one
    have hne : ds.isEmpty = false := by
      cases ds with
      | nil => cases hx
      | cons y ys => rfl
    simp only [hne, Bool.false_eq_true, if_neg, not_false_iff]
    exact DictOfStringSets.mem_getD_add_self _ _ _ _ hx

theorem inner_fold_mono (d : Option StrSet) (t : String) :
    ∀ (codes : List String) (out : DictOfStringSets) (k x : String),
      x ∈ DictOfStringSets.getD out k [] →
      x ∈ DictOfStringSets.getD
        (codes.foldl (codes_requiring_add_one d t) out) k [] := by
  intro codes
  induction codes with
  | nil => exact fun out k x h => h
  | cons c cs ih =>
      intro out k x h
      simp only [List.foldl_cons]
      exact ih _ _ _ (codes_requiring_add_one_mono d t out c k x h)

theorem inner_fold_hits (d : Option StrSet) (t : String) :
    ∀ (codes : List String) (out : DictOfStringSets) (C : String), C ∈ codes →
      t ∈ DictOfStringSets.getD
          (codes.foldl (codes_requiring_add_one d t) out) C [] ∧
      (∀ ds, d = some ds → ∀ x ∈ ds,
        x ∈ DictOfStringSets.getD
          (codes.foldl (codes_requiring_add_one d t) out) C []) := by
  intro codes
  induction codes with
  | nil => intro out C hC; cases hC
  | cons c cs ih =>
      intro out C hC
      simp only [List.foldl_cons]
      by_cases hmem : C ∈ cs
      · exact ih _ _ hmem
      · have hCc : C = c := by
          rcases List.mem_cons.mp hC with h | h
          · exact h
          · exact absurd h hmem
        subst hCc
        obtain ⟨h1, h2⟩ := codes_requiring_add_one_hits d t out C
        refine ⟨inner_fold_mono d t cs _ _ _ h1, ?_⟩
        intro ds hds x hx
        exact inner_fold_mono d t cs _ _ _ (h2 ds hds x hx)

theorem outer_fold_mono (hd : List (String × StrSet)) :
    ∀ (l : DictOfStringSets) (out : DictOfStringSets) (k x : String),
      x ∈ DictOfStringSets.getD out k [] →
      x ∈ DictOfStringSets.getD
        (l.foldl (fun out p =>
          p.snd.foldl
            (codes_requiring_add_one (DictOfStringSets.get? hd p.fst) p.fst)
            out) out) k [] := by
  intro l
  induction l with
  | nil => exact fun out k x h => h
  | cons p ps ih =>
      intro out k x h
      simp only [List.foldl_cons]
      exact ih _ _ _ (inner_fold_mono _ _ _ _ _ _ h)

theorem codes_requiring_add_one_none (d : Option StrSet) (t : String)
    (out : DictOfStringSets) (c k : String) (hk : k ≠ c)
    (h : DictOfStringSets.get? out k = none) :
    DictOfStringSets.get? (codes_requiring_add_one d t out c) k = none := by
  unfold codes_requiring_add_one
  have h1 := DictOfStringSets.get?_add_none out c k [t] (fun he => hk he.symm) h
  match d with
  | none => exact h1
  | some ds =>
      by_cases hds : ds.isEmpty
      · simp only [hds, if_pos]
        exact h1
      · simp only [hds, Bool.false_eq_true, if_neg, not_false_iff]
        exact DictOfStringSets.get?_add_none _ c k ds (fun he => hk he.symm) h1

theorem inner_fold_none (d : Option StrSet) (t : String) :
    ∀ (codes : List String) (out : DictOfStringSets) (k : String), k ∉ codes →
      DictOfStringSets.get? out k = none →
      DictOfStringSets.get?
        (codes.foldl (codes_requiring_add_one d t) out) k = none := by
  intro codes
  induction codes with
  | nil => exact fun out k _ h => h
  | cons c cs ih =>
      intro out k hk h
      simp only [List.foldl_cons]
      have hkc : k ≠ c := fun he => hk (by simp [he])
      exact ih _ _ (fun hm => hk (by simp [hm]))
        (codes_requiring_add_one_none d t out c k hkc h)

/-- Claim C5: for every reverse-direction base association of an input type
`T` to an outcome code `C`, the reverse map produced by
`compute_codes_requiring_type` maps `C` to a set containing `T` and every
descendant handle type of `T`; a code appearing in no association has no
entry in the reverse map. -/
theorem c5_reverse_map_descendant_propagation
    (handle_descendants : List (String × StrSet))
    (types_to_codes : DictOfStringSets) (T : String) (S : StrSet) (C : String)
    (hTS : (T, S) ∈ types_to_codes) (hC : C ∈ S) :
    (T ∈ DictOfStringSets.getD
        (compute_codes_requiring_type handle_descendants types_to_codes)
        C [] ∧
      ∀ d ∈ DictOfStringSets.getD handle_descendants T [],
        d ∈ DictOfStringSets.getD
          (compute_codes_requiring_type handle_descendants types_to_codes)
          C []) ∧
    (∀ C' : String, (∀ p ∈ types_to_codes, C' ∉ p.snd) →
      DictOfStringSets.get?
        (compute_codes_requiring_type handle_descendants types_to_codes)
        C' = none) := by
  constructor
  · unfold compute_codes_requiring_type
    have main : ∀ (l : DictOfStringSets) (out : DictOfStringSets),
        (T, S) ∈ l →
        T ∈ DictOfStringSets.getD
            (l.foldl (fun out p =>
              p.snd.foldl
                (codes_requiring_add_one
                  (DictOfStringSets.get? handle_descendants p.fst) p.fst)
                out) out) C [] ∧
        ∀ d ∈ DictOfStringSets.getD handle_descendants T [],
          d ∈ DictOfStringSets.getD
            (l.foldl (fun out p =>
              p.snd.foldl
                (codes_requiring_add_one
                  (DictOfStringSets.get? handle_descendants p.fst) p.fst)
                out) out) C [] := by
      intro l
      induction l with
      | nil => intro out h; cases h
      | cons p ps ih =>
          intro out hmem
          simp only [List.foldl_cons]
          by_cases hps : (T, S) ∈ ps
          · exact ih _ hps
          · have hp : p = (T, S) := by
              rcases List.mem_cons.mp hmem with h | h
              · exact h.symm
              · exact absurd h hps
            subst hp
            obtain ⟨h1, h2⟩ := inner_fold_hits
              (DictOfStringSets.get? handle_descendants T) T S out C hC
            refine ⟨outer_fold_mono handle_descendants ps _ _ _ h1, ?_⟩
            intro d hd
            apply outer_fold_mono handle_descendants ps
            unfold DictOfStringSets.getD at hd
            cases hget : DictOfStringSets.get? handle_descendants T with
            | none =>
                rw [hget] at hd
                cases hd
            | some ds =>
                rw [hget] at hd h2
                exact h2 ds rfl d hd
    exact main types_to_codes [] hTS
  · intro C' hC'
    unfold compute_codes_requiring_type
    have main : ∀ (l : DictOfStringSets) (out : DictOfStringSets),
        (∀ p ∈ l, C' ∉ p.snd) →
        DictOfStringSets.get? out C' = none →
        DictOfStringSets.get?
          (l.foldl (fun out p =>
            p.snd.foldl
              (codes_requiring_add_one
                (DictOfStringSets.get? handle_descendants p.fst) p.fst)
              out) out) C' = none := by
      intro l
      induction l with
      | nil => exact fun out _ h => h
      | cons p ps ih =>
          intro out hl h
          simp only [List.foldl_cons]
          exact ih _ (fun q hq => hl q (by simp [hq]))
            (inner_fold_none _ _ _ _ _ (hl p (by simp)) h)
    exact main types_to_codes [] hC' rfl

/-- Concrete witness for the hypotheses of
`c5_reverse_map_descendant_propagation`: base reverse association
`Instance -> {CODE_B}` with `descendants(Instance) = {Device}`. -/
theorem c5_reverse_map_descendant_propagation_witness :
    "Instance" ∈ DictOfStringSets.getD
        (compute_codes_requiring_type [("Instance", ["Device"])]
          [("Instance", ["CODE_B"])]) "CODE_B" [] ∧
    "Device" ∈ DictOfStringSets.getD
        (compute_codes_requiring_type [("Instance", ["Device"])]
          [("Instance", ["CODE_B"])]) "CODE_B" [] ∧
    DictOfStringSets.get?
        (compute_codes_requiring_type [("Instance", ["Device"])]
          [("Instance", ["CODE_B"])]) "CODE_X" = none :=
  ⟨(c5_reverse_map_descendant_propagation [("Instance", ["Device"])]
      [("Instance", ["CODE_B"])] "Instance" ["CODE_B"] "CODE_B"
      (by decide) (by decide)).1.1,
   (c5_reverse_map_descendant_propagation [("Instance", ["Device"])]
      [("Instance", ["CODE_B"])] "Instance" ["CODE_B"] "CODE_B"
      (by decide) (by decide)).1.2 "Device" (by decide),
   (c5_reverse_map_descendant_propagation [("Instance", ["Device"])]
      [("Instance", ["CODE_B"])] "Instance" ["CODE_B"] "CODE_B"
      (by decide) (by decide)).2 "CODE_X" (by decide)⟩

/-!
## Deep return-code checking (`XMLChecker.check_command_return_codes`)

`referenced_input` is `self.referenced_input_types[name]` (iterated, so a
list in the set's enumeration order) and `referenced_types` is
`self.referenced_api_types[name]`; both are supplied as arguments, as is
the forward map (`get_codes_for_command_and_type` defaults to
`input_type_to_codes.get(type_name, set())`).  Message strings mirror
`record_error`'s `" ".join(args)` rendering; where Python would render a
set (`str(missing_codes)` is not used, but `",".join(missing_codes)` and
`str(required_types)` are), the embedding joins the set's elements in its
enumeration order — no theorem depends on that text.
-/

def check_command_return_codes
    (input_type_to_codes codes_requiring_input_type : DictOfStringSets)
    (referenced_input : List String) (referenced_types : StrSet)
    (codes : StrSet) : List String :=
  (referenced_input.flatMap (fun referenced_type =>
    let required_codes :=
      DictOfStringSets.getD input_type_to_codes referenced_type []
    let missing_codes := required_codes.filter (fun c => decide (c ∉ codes))
    if missing_codes.isEmpty then []
    else
      ["Missing expected return code(s) " ++
        String.intercalate "," missing_codes ++
        " implied because of input of type " ++ referenced_type]))
  ++
  (codes.flatMap (fun code =>
    match DictOfStringSets.get? codes_requiring_input_type code with
    | none => []
    | some required_types =>
        if required_types.isEmpty then []
        else if (referenced_types.filter
            (fun t => decide (t ∈ required_types))).isEmpty then
          ["Unexpected return code " ++ code ++ " - none of these types: " ++
            String.intercalate "," required_types ++
            " found in the set of referenced types " ++
            String.intercalate "," referenced_types]
        else []))

/-- Claim C1 (code bug): with base configuration `Device -> {CODE_A}`,
`Instance -> {CODE_B}` and `Instance` the ancestor of `Device`, the claim
says `Device`'s forward entry is `{CODE_A, CODE_B}` and a command with a
`Device` input declaring only `errorcodes="CODE_A"` gets exactly one
missing-expected-return-code error naming `CODE_B` and `Device`.  The code
instead discards the result of `codes.union(*ancestors_codes)`
(`set.union` is pure), so no ancestor code is ever propagated: `Device`'s
forward entry stays `{CODE_A}`, `CODE_B` is absent from it, and the deep
check records no error at all — contradicting the source's own comment
("Any handle can result in its parent handle's codes too.") and the
commented-out `codes.update(parent_codes)` loop. -/
theorem c1_forward_ancestor_propagation_is_lost :
    DictOfStringSets.getD
        (compute_type_to_codes
          (ancestors_dict [("Instance", none), ("Device", some "Instance")] 2)
          [("Device", ["CODE_A"]), ("Instance", ["CODE_B"])])
        "Device" [] = ["CODE_A"] ∧
    "CODE_B" ∉ DictOfStringSets.getD
        (compute_type_to_codes
          (ancestors_dict [("Instance", none), ("Device", some "Instance")] 2)
          [("Device", ["CODE_A"]), ("Instance", ["CODE_B"])])
        "Device" [] ∧
    check_command_return_codes
        (compute_type_to_codes
          (ancestors_dict [("Instance", none), ("Device", some "Instance")] 2)
          [("Device", ["CODE_A"]), ("Instance", ["CODE_B"])])
        (compute_codes_requiring_type
          (descendants_dict [("Instance", none), ("Device", some "Instance")] 2)
          [("Device", ["CODE_A"]), ("Instance", ["CODE_B"])])
        ["Device"] ["Device"]
        (StrSet.union (StrSet.ofList []) (StrSet.ofList ["CODE_A"])) = [] := by
  refine ⟨by decide, by decide, by decide⟩

/-!
## Input classification (`XMLChecker.is_input`)

`membertext` is `"".join(member_elem.itertext())`.  The three text tests of
the source are embedded directly: Python's `in` (contiguous substring),
`CONST_RE = re.compile(r"\bconst\b")` (the word `const` delimited by
non-word characters or the ends of the text), and
`ARRAY_RE = re.compile(r"\[[^]]+\]")` (a bracket pair enclosing at least
one non-`]` character).  The API name prefix `conventions.type_prefix` is
the `pfx` argument.
-/

/-- Does `l` start with `pat`? -/
def startsWithChars : List Char → List Char → Bool
  | [], _ => true
  | _ :: _, [] => false
  | p :: ps, c :: cs => p == c && startsWithChars ps cs

/-- Does `l` contain `pat` as a contiguous run, at any position? -/
def hasSubstrChars (pat : List Char) : List Char → Bool
  | [] => startsWithChars pat []
  | c :: rest => startsWithChars pat (c :: rest) || hasSubstrChars pat rest

/-- Python `pat in s` (contiguous substring test). -/
def hasSubstr (pat s : String) : Bool :=
  hasSubstrChars pat.data s.data

/-- A regex word character (`\w` over this registry's ASCII text). -/
def isWordChar (c : Char) : Bool :=
  c.isAlphanum || c == '_'

/-- One candidate position for `\bconst\b`: the text starts with `const`,
the previous character (if any) is not a word character, and the following
character (if any) is not a word character. -/
def constMatchAt (prev : Option Char) (l : List Char) : Bool :=
  (match prev with
   | none => true
   | some c => !isWordChar c) &&
  decide (l.take 5 = ['c', 'o', 'n', 's', 't']) &&
  (match l.drop 5 with
   | [] => true
   | c :: _ => !isWordChar c)

/-- Scan for `\bconst\b` at every position, tracking the previous char. -/
def hasConstWordAux (prev : Option Char) : List Char → Bool
  | [] => false
  | c :: rest => constMatchAt prev (c :: rest) || hasConstWordAux (some c) rest

/-- `CONST_RE.search(membertext)` as a Boolean. -/
def hasConstWord (s : String) : Bool :=
  hasConstWordAux none s.data

/-- After an opening `[`: at least one non-`]` character and then `]`
(`[^]]+\]`; the character class cannot cross a `]`, so the maximal run of
non-`]` characters is the only candidate). -/
def arrayMatchAfterBracket (l : List Char) : Bool :=
  let inside := l.takeWhile (fun c => !(c == ']'))
  decide (1 ≤ inside.length) &&
    decide ((l.drop inside.length).head? = some ']')

/-- `ARRAY_RE.search(membertext)` as a Boolean. -/
def hasArrayMatch : List Char → Bool
  | [] => false
  | c :: rest => (c == '[' && arrayMatchAfterBracket rest) || hasArrayMatch rest

/-- `XMLChecker.is_input`: the source's early return plus `if`/`elif`
chain (`ret = True`; `const` always input; non-const `*` or array always
output). -/
def is_input ( pfx : String) (membertext : String) : Bool :=
  if !hasSubstr pfx membertext then false
  else if hasConstWord membertext then true
  else if hasSubstr "*" membertext then false
  else if hasArrayMatch membertext.data then false
  else true

/-- Claim C8: `is_input` returns true iff the member text contains the
API's reserved-namespace marker AND (it is const-qualified OR it is
neither a pointer nor an array); in particular a non-const pointer or
array parameter is classified as output.  The closed conjuncts evaluate
the predicate on a const pointer (input), a bare handle (input), a
non-const pointer (output), a non-const array (output), and a
foreign-namespace member (output). -/
theorem c8_is_input_const_or_value :
    (∀ ( pfx membertext : String),
      is_input pfx membertext =
        (hasSubstr pfx membertext &&
          (hasConstWord membertext ||
            (!hasSubstr "*" membertext && !hasArrayMatch membertext.data)))) ∧
    is_input "Xr" "const XrDevice* pDevice" = true ∧
    is_input "Xr" "XrDevice device" = true ∧
    is_input "Xr" "XrDevice* pDevice" = false ∧
    is_input "Xr" "XrDevice devices[2]" = false ∧
    is_input "Xr" "uint32_t count" = false := by
  refine ⟨?_, by decide, by decide, by decide, by decide, by decide⟩
  intro pfx membertext
  unfold is_input
  cases h1 : hasSubstr pfx membertext <;>
    cases h2 : hasConstWord membertext <;>
      cases h3 : hasSubstr "*" membertext <;>
        cases h4 : hasArrayMatch membertext.data <;>
          simp [h1, h2, h3, h4]

/-!
## Command return-code attribute checks (`XMLChecker.check_command`)

The return-code portion of `check_command` (lines after `check_params`):
parse the `errorcodes` / `successcodes` attributes (absent or empty
string means the empty list), early-out when both are empty, then the
duplicate checks, the overlap check, `check_command_return_codes_basic`,
and (since `should_skip_checking_codes` defaults to `False`)
`check_command_return_codes`.  The result is the list of error messages
recorded, in call order.
-/

/-- Parse a `errorcodes=` / `successcodes=` attribute:
`codes.split(",") if codes else []` (Python truthiness: `None` and the
empty string both give `[]`). -/
def parse_codes_attr : Option String → List String
  | none => []
  | some s => if s = "" then [] else pySplitComma s

/-- `XMLChecker.check_command_return_codes_basic`: every error code must
contain `_ERROR_`, and no success code may. -/
def check_command_return_codes_basic (successcodes errorcodes : StrSet) :
    List String :=
  (errorcodes.filter (fun code => !hasSubstr "_ERROR_" code)).map
    (fun code => code ++ " in errorcodes but doesn\x27t contain _ERROR_")
  ++
  (successcodes.filter (fun code => hasSubstr "_ERROR_" code)).map
    (fun code => code ++ " in successcodes but contain _ERROR_")

/-- The checks performed once at least one code list is non-empty:
duplicate detection, the overlap check, the basic `_ERROR_` marker check,
and the deep check on the union of both code sets. -/
def check_command_codes_main
    (input_type_to_codes codes_requiring_input_type : DictOfStringSets)
    (referenced_input : List String) (referenced_types : StrSet)
    (errorcodes successcodes : List String) : List String :=
  let errorcodes_set := StrSet.ofList errorcodes
  let successcodes_set := StrSet.ofList successcodes
  (if errorcodes.length ≠ errorcodes_set.length then
      ["Contains a duplicate in errorcodes"] else []) ++
  (if successcodes.length ≠ successcodes_set.length then
      ["Contains a duplicate in successcodes"] else []) ++
  (if !StrSet.disjointb successcodes_set errorcodes_set then
      ["Has errorcodes and successcodes that overlap"] else []) ++
  check_command_return_codes_basic successcodes_set errorcodes_set ++
  check_command_return_codes input_type_to_codes codes_requiring_input_type
    referenced_input referenced_types
    (StrSet.union successcodes_set errorcodes_set)

/-- The return-code portion of `XMLChecker.check_command`. -/
def check_command_codes
    (input_type_to_codes codes_requiring_input_type : DictOfStringSets)
    (referenced_input : List String) (referenced_types : StrSet)
    (errorcodes_attr successcodes_attr : Option String) : List String :=
  let errorcodes := parse_codes_attr errorcodes_attr
  let successcodes := parse_codes_attr successcodes_attr
  if successcodes.isEmpty && errorcodes.isEmpty then []
  else
    check_command_codes_main input_type_to_codes codes_requiring_input_type
      referenced_input referenced_types errorcodes successcodes

theorem head?_append_left {α : Type} (l1 l2 : List α) (h : l1 ≠ []) :
    (l1 ++ l2).head? = l1.head? := by
  cases l1 with
  | nil => exact absurd rfl h
  | cons c cs => rfl

theorem append_suffix_ne_of_last (code sfx target : String)
    (hne : sfx.data.reverse.head? ≠ target.data.reverse.head?)
    (hs : sfx.data.reverse ≠ []) :
    code ++ sfx ≠ target := by
  intro h
  have h2 : (code.data ++ sfx.data).reverse.head? =
      target.data.reverse.head? := by
    rw [show code.data ++ sfx.data = (code ++ sfx).data from rfl, h]
  rw [List.reverse_append, head?_append_left _ _ hs] at h2
  exact hne h2

theorem missing_msg_ne_overlap (x y : String) :
    "Missing expected return code(s) " ++ x ++
        " implied because of input of type " ++ y ≠
      "Has errorcodes and successcodes that overlap" := by
  intro h
  have h2 : ("Missing expected return code(s) " ++ x ++
      " implied because of input of type " ++ y).data.head? = some 'M' := rfl
  rw [h] at h2
  exact absurd h2 (by decide)

theorem unexpected_msg_ne_overlap (x y z : String) :
    "Unexpected return code " ++ x ++ " - none of these types: " ++ y ++
        " found in the set of referenced types " ++ z ≠
      "Has errorcodes and successcodes that overlap" := by
  intro h
  have h2 : ("Unexpected return code " ++ x ++ " - none of these types: " ++
      y ++ " found in the set of referenced types " ++ z).data.head? =
      some 'U' := rfl
  rw [h] at h2
  exact absurd h2 (by decide)

theorem overlap_not_in_deep
    (input_type_to_codes codes_requiring_input_type : DictOfStringSets)
    (referenced_input : List String) (referenced_types codes : StrSet) :
    "Has errorcodes and successcodes that overlap" ∉
      check_command_return_codes input_type_to_codes
        codes_requiring_input_type referenced_input referenced_types codes := by
  intro hmem
  unfold check_command_return_codes at hmem
  rw [List.mem_append] at hmem
  rcases hmem with h | h
  · rw [List.mem_flatMap] at h
    obtain ⟨t, _, hin⟩ := h
    by_cases hc : (List.filter
        (fun c => decide (c ∉ codes))
        (DictOfStringSets.getD input_type_to_codes t [])).isEmpty
    · simp only [hc, if_pos] at hin
      cases hin
    · simp only [hc, Bool.false_eq_true, if_neg, not_false_iff,
        List.mem_singleton] at hin
      exact missing_msg_ne_overlap _ _ hin.symm
  · rw [List.mem_flatMap] at h
    obtain ⟨c, _, hin⟩ := h
    revert hin
    cases DictOfStringSets.get? codes_requiring_input_type c with
    | none => intro hin; cases hin
    | some required_types =>
        by_cases h1 : required_types.isEmpty
        · simp only [h1, if_pos]
          intro hin
          cases hin
        · simp only [h1, Bool.false_eq_true, if_neg, not_false_iff]
          by_cases h2 : (referenced_types.filter
              (fun t => decide (t ∈ required_types))).isEmpty
          · simp only [h2, if_pos, List.mem_singleton]
            intro hin
            exact unexpected_msg_ne_overlap _ _ _ hin.symm
          · simp only [h2, Bool.false_eq_true, if_neg, not_false_iff]
            intro hin
            cases hin

theorem overlap_not_in_basic (successcodes errorcodes : StrSet) :
    "Has errorcodes and successcodes that overlap" ∉
      check_command_return_codes_basic successcodes errorcodes := by
  intro hmem
  unfold check_command_return_codes_basic at hmem
  rw [List.mem_append] at hmem
  rcases hmem with h | h
  · rw [List.mem_map] at h
    obtain ⟨code, _, hin⟩ := h
    exact append_suffix_ne_of_last code _ _ (by decide) (by decide) hin
  · rw [List.mem_map] at h
    obtain ⟨code, _, hin⟩ := h
    exact append_suffix_ne_of_last code _ _ (by decide) (by decide) hin

theorem count_if_singleton (c : Prop) [Decidable c] (m a : String)
    (h : a ≠ m) : ((if c then [m] else [] : List String).count a) = 0 := by
  split
  · rw [List.count_eq_zero]
    simp [h]
  · rfl

theorem count_overlap_main
    (input_type_to_codes codes_requiring_input_type : DictOfStringSets)
    (referenced_input : List String) (referenced_types : StrSet)
    (errorcodes successcodes : List String) :
    (check_command_codes_main input_type_to_codes codes_requiring_input_type
        referenced_input referenced_types errorcodes successcodes).count
      "Has errorcodes and successcodes that overlap" =
      if StrSet.disjointb (StrSet.ofList successcodes)
          (StrSet.ofList errorcodes) then 0 else 1 := by
  simp only [check_command_codes_main, List.count_append]
  rw [count_if_singleton _ _ _ (by decide), count_if_singleton _ _ _ (by decide)]
  rw [List.count_eq_zero.mpr (overlap_not_in_basic _ _),
    List.count_eq_zero.mpr (overlap_not_in_deep _ _ _ _ _)]
  cases hd : StrSet.disjointb (StrSet.ofList successcodes)
      (StrSet.ofList errorcodes) with
  | true => simp [hd]
  | false => simp [hd]

/-- Claim C7: `check_command` records the codes-overlap error exactly when
the declared error-code and success-code sets intersect (one occurrence of
that message), and records none when they are disjoint — including when
both sets are empty (the early return). -/
theorem c7_overlap_error_exactly_when_sets_intersect
    (input_type_to_codes codes_requiring_input_type : DictOfStringSets)
    (referenced_input : List String) (referenced_types : StrSet)
    (errorcodes_attr successcodes_attr : Option String) :
    ((check_command_codes input_type_to_codes codes_requiring_input_type
        referenced_input referenced_types errorcodes_attr
        successcodes_attr).count
      "Has errorcodes and successcodes that overlap" =
      if StrSet.disjointb
          (StrSet.ofList (parse_codes_attr successcodes_attr))
          (StrSet.ofList (parse_codes_attr errorcodes_attr))
        then 0 else 1) ∧
    (StrSet.disjointb (StrSet.ofList (parse_codes_attr successcodes_attr))
        (StrSet.ofList (parse_codes_attr errorcodes_attr)) = false ↔
      ∃ c, c ∈ parse_codes_attr successcodes_attr ∧
        c ∈ parse_codes_attr errorcodes_attr) := by
  constructor
  · simp only [check_command_codes]
    cases h0 : ((parse_codes_attr successcodes_attr).isEmpty &&
        (parse_codes_attr errorcodes_attr).isEmpty) with
    | true =>
        rw [Bool.and_eq_true] at h0
        have hs : parse_codes_attr successcodes_attr = [] :=
          List.isEmpty_iff.mp h0.1
        have hdisj : StrSet.disjointb
            (StrSet.ofList (parse_codes_attr successcodes_attr))
            (StrSet.ofList (parse_codes_attr errorcodes_attr)) = true := by
          rw [hs]
          rfl
        simp [hdisj]
    | false => simp [count_overlap_main]
  · have hall : StrSet.disjointb
        (StrSet.ofList (parse_codes_attr successcodes_attr))
        (StrSet.ofList (parse_codes_attr errorcodes_attr)) = true ↔
        ∀ c ∈ StrSet.ofList (parse_codes_attr successcodes_attr),
          c ∉ StrSet.ofList (parse_codes_attr errorcodes_attr) := by
      simp [StrSet.disjointb]
    rw [Bool.eq_false_iff, Ne, hall]
    push_neg
    constructor
    · rintro ⟨c, hc1, hc2⟩
      exact ⟨c, (StrSet.mem_ofList _ _).mp hc1, (StrSet.mem_ofList _ _).mp hc2⟩
    · rintro ⟨c, hc1, hc2⟩
      exact ⟨c, (StrSet.mem_ofList _ _).mpr hc1,
        (StrSet.mem_ofList _ _).mpr hc2⟩

/-!
## Referenced-type closure (`ReferencedTypes`)

`ReferencedTypes.compute` (in the sources) derives, for one type, the set
of directly referenced member types passing the predicate and unions in
the recursively referenced sets, where `self[t]` returns `None` for a type
whose computation is in progress.  The member/predicate layer
(`db.getMemberElems` plus the `member.find("type")` extraction) is
abstracted into a finite table `g` from type name to the list of its
direct predicate-passing referenced type names.
-/

/-- The direct predicate-passing references of a type (`[]` when the type
has no member elements, matching `if not members: return set()`). -/
def typeRefs (g : List (String × List String)) (t : String) : List String :=
  match g.find? (fun p => p.fst = t) with
  | some p => p.snd
  | none => []

/-- The type names known to the member table. -/
def gKeys (g : List (String × List String)) : List String :=
  g.map Prod.fst

/-- Modelled from the spec: the recursion/memoization driver
`RecursiveMemoize` (`spec_tools/algo.py`, not in the sources) with
`permit_cycles=True` keeps an in-progress marker per key and returns
`None` for a key whose computation is currently in progress instead of
re-entering it.  `visited` is the in-progress set (the call path);
`ReferencedTypes.compute`'s body is embedded directly: the direct
references, then a fold unioning each non-`None` recursive contribution
(`if referenced is not None`).  A referenced name absent from the table
contributes `some []`, which is what its own computation would return
(its `typeRefs` are `[]`). -/
def closureAux (g : List (String × List String)) (visited : List String)
    (t : String) : StrSet :=
  let types := StrSet.ofList (typeRefs g t)
  let contributions := types.map (fun u =>
    if hv : u ∈ visited then none
    else if hk : u ∈ gKeys g then some (closureAux g (u :: visited) u)
    else some [])
  contributions.foldl
    (fun all_types referenced =>
      match referenced with
      | some r => all_types.union r
      | none => all_types)
    types
termination_by ((gKeys g).toFinset \ visited.toFinset).card
decreasing_by
  simp_wf
  apply Finset.card_lt_card
  have hsub : (gKeys g).toFinset \ insert u visited.toFinset ⊆
      (gKeys g).toFinset \ visited.toFinset := by
    intro x hx
    simp only [Finset.mem_sdiff, Finset.mem_insert, List.mem_toFinset] at hx ⊢
    exact ⟨hx.1, fun hxv => hx.2 (Or.inr hxv)⟩
  have hu : u ∈ (gKeys g).toFinset \ visited.toFinset := by
    simp only [Finset.mem_sdiff, List.mem_toFinset]
    exact ⟨hk, hv⟩
  have hnot : u ∉ (gKeys g).toFinset \ insert u visited.toFinset := by
    simp
  exact (Finset.ssubset_iff_of_subset hsub).mpr ⟨u, hu, hnot⟩

/-- `ReferencedTypes.__getitem__` at top level: compute a type's closure
with that type itself marked in progress. -/
def referencedTypes (g : List (String × List String)) (t : String) : StrSet :=
  closureAux g [t] t

theorem foldl_union_opt_nodup :
    ∀ (l : List (Option StrSet)) (acc : StrSet), acc.Nodup →
      (l.foldl
        (fun all_types referenced =>
          match referenced with
          | some r => all_types.union r
          | none => all_types) acc).Nodup := by
  intro l
  induction l with
  | nil => exact fun acc h => h
  | cons o os ih =>
      intro acc h
      simp only [List.foldl_cons]
      cases o with
      | some r => exact ih _ (StrSet.nodup_union h r)
      | none => exact ih _ h

/-- Claim C6: the referenced-type closure terminates on cyclic member
graphs — a self-referencing type and a 2-cycle both evaluate (the Lean
embedding is total by well-founded recursion on the unvisited keys, which
is exactly the in-progress-marker argument) — and the result is a finite
set containing each involved type at most once (`Nodup`, for every input).
-/
theorem c6_closure_terminates_on_cycles :
    (∀ (g : List (String × List String)) (visited : List String) (t : String),
        (closureAux g visited t).Nodup) ∧
    referencedTypes [("S", ["S"])] "S" = ["S"] ∧
    referencedTypes [("A", ["B"]), ("B", ["A"])] "A" = ["B", "A"] ∧
    referencedTypes [("A", ["B"]), ("B", ["A"])] "B" = ["A", "B"] := by
  refine ⟨?_, ?_, ?_, ?_⟩
  · intro g visited t
    rw [closureAux.eq_def]
    exact foldl_union_opt_nodup _ _ (StrSet.nodup_ofList _)
  · unfold referencedTypes
    rw [closureAux.eq_def]
    simp [typeRefs, gKeys, StrSet.ofList, StrSet.insert, StrSet.union]
  · unfold referencedTypes
    rw [closureAux.eq_def]
    simp [typeRefs, gKeys, StrSet.ofList, StrSet.insert, StrSet.union]
    rw [closureAux.eq_def]
    simp [typeRefs, gKeys, StrSet.ofList, StrSet.insert, StrSet.union]
  · unfold referencedTypes
    rw [closureAux.eq_def]
    simp [typeRefs, gKeys, StrSet.ofList, StrSet.insert, StrSet.union]
    rw [closureAux.eq_def]
    simp [typeRefs, gKeys, StrSet.ofList, StrSet.insert, StrSet.union]

/-!
## Report drain (end of `XMLChecker.check`)

`check()` ends with
`entities_with_messages = set(self.errors.keys()).union(self.warnings.keys())`
and then `for entity in entities_with_messages:` prints a section header
followed by that entity's errors and then its warnings.  A Python `set`'s
iteration order is unspecified (no `sorted(...)` appears in the source),
so the drain is embedded as a function of the enumeration order the set
happens to produce; `validEnum` says the enumeration is exactly the union
of the two key sets, without repetition.  A section is embedded as
`(entity, its error set, its warning set)` — within one section all errors
precede all warnings.
-/

def checkDrain (errors warnings : DictOfStringSets) (order : List String) :
    List (String × StrSet × StrSet) :=
  order.map (fun entity =>
    (entity, DictOfStringSets.getD errors entity [],
      DictOfStringSets.getD warnings entity []))

/-- `order` enumerates `set(errors.keys()).union(warnings.keys())`. -/
def validEnum (errors warnings : DictOfStringSets) (order : List String) :
    Prop :=
  order.Nodup ∧
  (∀ e ∈ order, e ∈ DictOfStringSets.keys errors ∨
    e ∈ DictOfStringSets.keys warnings) ∧
  (∀ e ∈ DictOfStringSets.keys errors, e ∈ order) ∧
  (∀ e ∈ DictOfStringSets.keys warnings, e ∈ order)

/-- Claim C2 counterexample: the claim says the sections are ordered by
the deterministically *sorted* union of entity names, the same for every
run.  The code iterates a hash set without sorting: both `["B", "A"]` and
`["A", "B"]` are valid enumerations of the union for the same input, they
produce different section orders, and the first is not the sorted order —
so the printed order is neither sorted nor independent of the internal
storage enumeration. -/
theorem c2_sections_not_sorted_counterexample :
    validEnum [("B", ["m1"]), ("A", ["m2"])] [] ["B", "A"] ∧
    validEnum [("B", ["m1"]), ("A", ["m2"])] [] ["A", "B"] ∧
    (checkDrain [("B", ["m1"]), ("A", ["m2"])] [] ["B", "A"]).map Prod.fst =
      ["B", "A"] ∧
    (checkDrain [("B", ["m1"]), ("A", ["m2"])] [] ["A", "B"]).map Prod.fst =
      ["A", "B"] ∧
    ["B", "A"] ≠ ["A", "B"] := by
  refine ⟨?_, ?_, by decide, by decide, by decide⟩
  · unfold validEnum
    decide
  · unfold validEnum
    decide

/-- Claim C2 amended: `check` prints one section per entity that produced
at least one message — each entity exactly once, each section listing all
of that entity's errors and then all of its warnings — but the sections
follow the iteration order of the un-sorted set union of error-bearing
and warning-bearing entity names, which is whatever enumeration the set
yields, not the sorted order and not guaranteed identical across runs. -/
theorem c2_amended_sections_follow_enumeration
    (errors warnings : DictOfStringSets) (order : List String)
    (h : validEnum errors warnings order) :
    (checkDrain errors warnings order).map Prod.fst = order ∧
    ((checkDrain errors warnings order).map Prod.fst).Nodup ∧
    (∀ e, e ∈ (checkDrain errors warnings order).map Prod.fst ↔
      (e ∈ DictOfStringSets.keys errors ∨
        e ∈ DictOfStringSets.keys warnings)) ∧
    (∀ p ∈ checkDrain errors warnings order,
      p.2.1 = DictOfStringSets.getD errors p.1 [] ∧
      p.2.2 = DictOfStringSets.getD warnings p.1 []) := by
  have hmap : (checkDrain errors warnings order).map Prod.fst = order := by
    unfold checkDrain
    rw [List.map_map]
    exact List.map_id order
  refine ⟨hmap, ?_, ?_, ?_⟩
  · rw [hmap]
    exact h.1
  · intro e
    rw [hmap]
    constructor
    · exact h.2.1 e
    · rintro (he | he)
      · exact h.2.2.1 e he
      · exact h.2.2.2 e he
  · intro p hp
    unfold checkDrain at hp
    rw [List.mem_map] at hp
    obtain ⟨e, _, he⟩ := hp
    rw [← he]
    exact ⟨rfl, rfl⟩

/-- Concrete witness for the hypothesis of
`c2_amended_sections_follow_enumeration`. -/
theorem c2_amended_sections_follow_enumeration_witness :
    (checkDrain [("B", ["m1"]), ("A", ["m2"])] [] ["B", "A"]).map Prod.fst =
      ["B", "A"] :=
  (c2_amended_sections_follow_enumeration [("B", ["m1"]), ("A", ["m2"])] []
      ["B", "A"] (by unfold validEnum; decide)).1

/-!
## Diagnostic recording (`record_error`, `record_warning`,
`set_error_context`, `_prepend_sourceline_to_message`)

The checker's mutable state is embedded as a structure: the run-wide
`fail` flag, the two per-entity message buckets, the construction-time
suppression table, and the error context set by `set_error_context`
(`entity`, `entity_suppressions`, and the element/filename data consumed
by `_prepend_sourceline_to_message`; `elem = some sl` is a present element
with optional lxml `sourceline`, `none` an absent one).  All in-source
call sites pass only positional message parts, so the `filename=`/`elem=`
keyword paths of `_prepend_sourceline_to_message` collapse to the
context-element path embedded here.  Python truthiness of
`self.reg.filename` (the empty string is falsy) and of
`self.entity_suppressions` (an empty set is falsy, but membership in an
empty set is false anyway) is preserved.
-/

structure CheckerState where
  fail : Bool
  errors : DictOfStringSets
  warnings : DictOfStringSets
  suppressions : DictOfStringSets
  entity : String
  entity_suppressions : Option StrSet
  reg_filename : Option String
  elem : Option (Option Nat)

/-- `" ".join(str(x) for x in args)`. -/
def render_args (args : List String) : String :=
  String.intercalate " " args

/-- `self.entity_suppressions and message in self.entity_suppressions`. -/
def suppressedb (sup : Option StrSet) (message : String) : Bool :=
  match sup with
  | some l => decide (message ∈ l)
  | none => false

/-- `XMLChecker._prepend_sourceline_to_message` for the context element:
the filename comes from the registry only when an element is present, the
source line from the element when lxml provides one. -/
def prepend_sourceline (s : CheckerState) (message : String) : String :=
  let sourceline : Option Nat :=
    match s.elem with
    | some sl => sl
    | none => none
  let fn : Option String :=
    match s.elem with
    | some _ =>
        match s.reg_filename with
        | some f => if f = "" then none else some f
        | none => none
    | none => none
  match fn, sourceline with
  | none, none => message
  | none, some line => "Line " ++ toString line ++ ": " ++ message
  | some f, none => f ++ ": " ++ message
  | some f, some line => f ++ ":" ++ toString line ++ ": " ++ message

/-- `XMLChecker.record_error`: render, drop when suppressed for the
current entity, otherwise decorate, set `fail`, and add to the entity's
error bucket. -/
def record_error (s : CheckerState) (args : List String) : CheckerState :=
  let message := render_args args
  if suppressedb s.entity_suppressions message then s
  else
    { s with
        fail := true,
        errors := DictOfStringSets.add s.errors s.entity
          [prepend_sourceline s message] }

/-- `XMLChecker.record_warning`: identical except that it never touches
`fail` and adds to the warning bucket. -/
def record_warning (s : CheckerState) (args : List String) : CheckerState :=
  let message := render_args args
  if suppressedb s.entity_suppressions message then s
  else
    { s with
        warnings := DictOfStringSets.add s.warnings s.entity
          [prepend_sourceline s message] }

/-- One step of a run: `set_error_context` (which re-resolves
`entity_suppressions` from the element name) or a diagnostic call. -/
inductive DiagOp where
  | setctx (entity elemName : String) (elem : Option (Option Nat))
  | err (args : List String)
  | warn (args : List String)

def applyOp (s : CheckerState) : DiagOp → CheckerState
  | DiagOp.setctx entity elemName elem =>
      { s with
          entity := entity,
          elem := elem,
          entity_suppressions :=
            DictOfStringSets.get? s.suppressions elemName }
  | DiagOp.err args => record_error s args
  | DiagOp.warn args => record_warning s args

def applyOps (s : CheckerState) (ops : List DiagOp) : CheckerState :=
  ops.foldl applyOp s

/-- The number of error messages actually recorded during a run (an
`record_error` call whose rendered message is not suppressed for the
entity in context at that point). -/
def countRecordedErrors : CheckerState → List DiagOp → Nat
  | _, [] => 0
  | s, op :: rest =>
      (match op with
       | DiagOp.err args =>
           if suppressedb s.entity_suppressions (render_args args) then 0
           else 1
       | _ => 0) + countRecordedErrors (applyOp s op) rest

theorem record_error_suppressed (s : CheckerState) (args : List String)
    (h : suppressedb s.entity_suppressions (render_args args) = true) :
    record_error s args = s := by
  unfold record_error
  simp [h]

theorem record_warning_fail (s : CheckerState) (args : List String) :
    (record_warning s args).fail = s.fail := by
  unfold record_warning
  by_cases hs : suppressedb s.entity_suppressions (render_args args) = true
  · simp [hs]
  · simp [hs]

theorem applyOp_fail_mono (s : CheckerState) (op : DiagOp)
    (h : s.fail = true) : (applyOp s op).fail = true := by
  cases op with
  | setctx e en el => exact h
  | err args =>
      show (record_error s args).fail = true
      unfold record_error
      by_cases hs : suppressedb s.entity_suppressions (render_args args) = true
      · simp [hs, h]
      · simp [hs]
  | warn args =>
      show (record_warning s args).fail = true
      rw [record_warning_fail]
      exact h

theorem applyOps_fail_mono :
    ∀ (ops : List DiagOp) (s : CheckerState), s.fail = true →
      (applyOps s ops).fail = true := by
  intro ops
  induction ops with
  | nil => exact fun s h => h
  | cons op rest ih =>
      intro s h
      exact ih _ (applyOp_fail_mono s op h)

/-- Claim C9: a suppressed error leaves the whole state (flag and buckets)
unchanged; an unsuppressed one sets `fail` and lands in the current
entity's error bucket; `record_warning` never changes `fail`; and over any
run starting with `fail = False`, the final flag is true exactly when at
least one error message was actually recorded. -/
theorem c9_fail_iff_error_recorded :
    (∀ (s : CheckerState) (args : List String),
        suppressedb s.entity_suppressions (render_args args) = true →
        record_error s args = s) ∧
    (∀ (s : CheckerState) (args : List String),
        suppressedb s.entity_suppressions (render_args args) = false →
        (record_error s args).fail = true ∧
        prepend_sourceline s (render_args args) ∈
          DictOfStringSets.getD (record_error s args).errors s.entity []) ∧
    (∀ (s : CheckerState) (args : List String),
        (record_warning s args).fail = s.fail) ∧
    (∀ (s : CheckerState) (ops : List DiagOp), s.fail = false →
        ((applyOps s ops).fail = true ↔ 0 < countRecordedErrors s ops)) := by
  refine ⟨record_error_suppressed, ?_, record_warning_fail, ?_⟩
  · intro s args h
    constructor
    · unfold record_error
      simp [h]
    · unfold record_error
      simp only [h, Bool.false_eq_true, if_neg, not_false_iff]
      exact DictOfStringSets.mem_getD_add_self _ _ _ _ (by simp)
  · intro s ops
    induction ops generalizing s with
    | nil =>
        intro h
        unfold applyOps countRecordedErrors
        simp [h]
    | cons op rest ih =>
        intro h
        show ((applyOps (applyOp s op) rest).fail = true ↔ _)
        cases op with
        | setctx e en el =>
            have hf : (applyOp s (DiagOp.setctx e en el)).fail = false := h
            rw [ih _ hf]
            simp [countRecordedErrors]
        | warn args =>
            have hf : (applyOp s (DiagOp.warn args)).fail = false := by
              show (record_warning s args).fail = false
              rw [record_warning_fail]
              exact h
            rw [ih _ hf]
            simp [countRecordedErrors]
        | err args =>
            cases hsup : suppressedb s.entity_suppressions
                (render_args args) with
            | true =>
                have hstate : applyOp s (DiagOp.err args) = s :=
                  record_error_suppressed s args hsup
                rw [hstate, ih _ h]
                simp [countRecordedErrors, hsup, hstate]
            | false =>
                have hfail : (applyOp s (DiagOp.err args)).fail = true := by
                  show (record_error s args).fail = true
                  unfold record_error
                  simp [hsup]
                constructor
                · intro _
                  simp [countRecordedErrors, hsup]
                · intro _
                  exact applyOps_fail_mono rest _ hfail

/-- Concrete witness for the hypotheses of `c9_fail_iff_error_recorded`:
a checker with the exact-text suppression `"bad thing"` registered for
entity `Cmd`. -/
theorem c9_fail_iff_error_recorded_witness :
    record_error
        ⟨false, [], [], [("Cmd", ["bad thing"])], "Cmd", some ["bad thing"],
          none, none⟩ ["bad", "thing"] =
      ⟨false, [], [], [("Cmd", ["bad thing"])], "Cmd", some ["bad thing"],
        none, none⟩ ∧
    (record_error
        ⟨false, [], [], [("Cmd", ["bad thing"])], "Cmd", some ["bad thing"],
          none, none⟩ ["unrelated", "msg"]).fail = true ∧
    ((applyOps
        ⟨false, [], [], [("Cmd", ["bad thing"])], "Cmd", some ["bad thing"],
          none, none⟩ [DiagOp.err ["unrelated", "msg"]]).fail = true ↔
      0 < countRecordedErrors
        ⟨false, [], [], [("Cmd", ["bad thing"])], "Cmd", some ["bad thing"],
          none, none⟩ [DiagOp.err ["unrelated", "msg"]]) :=
  ⟨c9_fail_iff_error_recorded.1 _ ["bad", "thing"] (by decide),
   (c9_fail_iff_error_recorded.2.1 _ ["unrelated", "msg"] (by decide)).1,
   c9_fail_iff_error_recorded.2.2.2 _ [DiagOp.err ["unrelated", "msg"]] rfl⟩

theorem add_singleton_idem :
    ∀ (d : DictOfStringSets) (k m : String),
      DictOfStringSets.add (DictOfStringSets.add d k [m]) k [m] =
        DictOfStringSets.add d k [m] := by
  intro d
  induction d with
  | nil =>
      intro k m
      simp only [DictOfStringSets.add, if_pos]
      rw [StrSet.union_of_subset]
      intro x hx
      rw [List.mem_singleton] at hx
      subst hx
      exact (StrSet.mem_union _ _ _).mpr (Or.inr (by simp))
  | cons p rest ih =>
      intro k m
      obtain ⟨k0, s0⟩ := p
      by_cases hk : k0 = k
      · subst hk
        simp only [DictOfStringSets.add, if_pos]
        rw [StrSet.union_of_subset]
        intro x hx
        rw [List.mem_singleton] at hx
        subst hx
        exact (StrSet.mem_union _ _ _).mpr (Or.inr (by simp))
      · simp only [DictOfStringSets.add, if_neg hk]
        rw [ih]

theorem getD_add_nodup (d : DictOfStringSets) (k k' : String) (v : StrSet)
    (h : (DictOfStringSets.getD d k' []).Nodup) :
    (DictOfStringSets.getD (DictOfStringSets.add d k v) k' []).Nodup := by
  by_cases hk : k = k'
  · subst hk
    unfold DictOfStringSets.getD
    rw [DictOfStringSets.get?_add_self]
    exact StrSet.nodup_union h v
  · unfold DictOfStringSets.getD
    rw [DictOfStringSets.get?_add_other d k k' v hk]
    exact h

theorem record_error_unsuppressed (s : CheckerState) (args : List String)
    (h : suppressedb s.entity_suppressions (render_args args) = false) :
    record_error s args =
      { s with
          fail := true,
          errors := DictOfStringSets.add s.errors s.entity
            [prepend_sourceline s (render_args args)] } := by
  unfold record_error
  simp [h]

theorem record_warning_unsuppressed (s : CheckerState) (args : List String)
    (h : suppressedb s.entity_suppressions (render_args args) = false) :
    record_warning s args =
      { s with
          warnings := DictOfStringSets.add s.warnings s.entity
            [prepend_sourceline s (render_args args)] } := by
  unfold record_warning
  simp [h]

theorem record_warning_suppressed (s : CheckerState) (args : List String)
    (h : suppressedb s.entity_suppressions (render_args args) = true) :
    record_warning s args = s := by
  unfold record_warning
  simp [h]

theorem prepend_update_err (s : CheckerState) (b : Bool)
    (E : DictOfStringSets) (m : String) :
    prepend_sourceline { s with fail := b, errors := E } m =
      prepend_sourceline s m := rfl

theorem prepend_update_warn (s : CheckerState) (W : DictOfStringSets)
    (m : String) :
    prepend_sourceline { s with warnings := W } m =
      prepend_sourceline s m := rfl

/-- Claim C10: per-entity diagnostics are stored as sets of rendered
message strings: recording the same arguments a second time changes
nothing (errors and warnings), a duplicate-free error bucket stays
duplicate-free, and on a fresh checker two identical `record_error` calls
leave exactly one stored copy of the rendered message. -/
theorem c10_duplicate_messages_stored_once :
    (∀ (s : CheckerState) (args : List String),
        record_error (record_error s args) args = record_error s args ∧
        record_warning (record_warning s args) args =
          record_warning s args) ∧
    (∀ (s : CheckerState) (args : List String) (e : String),
        (DictOfStringSets.getD s.errors e []).Nodup →
        (DictOfStringSets.getD (record_error s args).errors e []).Nodup) ∧
    (DictOfStringSets.getD
        (record_error
          (record_error ⟨false, [], [], [], "Cmd", none, none, none⟩
            ["dup", "message"])
          ["dup", "message"]).errors "Cmd" []).count "dup message" = 1 := by
  refine ⟨?_, ?_, by decide⟩
  · intro s args
    constructor
    · cases hsup : suppressedb s.entity_suppressions (render_args args) with
      | true =>
          rw [record_error_suppressed s args hsup]
          exact record_error_suppressed s args hsup
      | false =>
          rw [record_error_unsuppressed s args hsup]
          have hsup2 : suppressedb
              ({ s with
                  fail := true,
                  errors := DictOfStringSets.add s.errors s.entity
                    [prepend_sourceline s (render_args args)] } :
                CheckerState).entity_suppressions (render_args args) =
              false := hsup
          rw [record_error_unsuppressed _ args hsup2]
          simp only [prepend_update_err]
          simp [add_singleton_idem]
    · cases hsup : suppressedb s.entity_suppressions (render_args args) with
      | true =>
          rw [record_warning_suppressed s args hsup]
          exact record_warning_suppressed s args hsup
      | false =>
          rw [record_warning_unsuppressed s args hsup]
          have hsup2 : suppressedb
              ({ s with
                  warnings := DictOfStringSets.add s.warnings s.entity
                    [prepend_sourceline s (render_args args)] } :
                CheckerState).entity_suppressions (render_args args) =
              false := hsup
          rw [record_warning_unsuppressed _ args hsup2]
          simp only [prepend_update_warn]
          simp [add_singleton_idem]
  · intro s args e h
    cases hsup : suppressedb s.entity_suppressions (render_args args) with
    | true =>
        rw [record_error_suppressed s args hsup]
        exact h
    | false =>
        rw [record_error_unsuppressed s args hsup]
        exact getD_add_nodup _ _ _ _ h
